import Mathlib

/-
Verification of the dataset-acquisition workflow in
src/f5_tts/train/datasets/download_datasets.py.

The embedding has two complementary views of the same source file:

1. A file-system view: paths are lists of components, a file system is a
   map from paths to optional contents, and the directory operations used
   by download_emilia (mkdir with parents, mkdir, shutil.rmtree,
   shutil.copytree) are modelled as functions on file systems.

2. A trace view: each call to an external collaborator (HfApi.whoami,
   login, snapshot_download, wget, tar, unlink, mkdir) is an event; the
   behaviour of the outside world (exit codes, exceptions, environment
   variables) is an oracle record Env.  Each Python function becomes a
   function from the oracle to the list of events it performs paired with
   a Bool that is true exactly when the Python function returns without
   raising.
-/

namespace F5

/-- A file-system path, as a list of path components. -/
abbrev FsPath : Type := List String

/-- Contents stored at a path: a directory or a file with data. -/
inductive Content where
  | dir : Content
  | file : String → Content
deriving DecidableEq

/-- A file system: a map from paths to optional contents. -/
abbrev FS : Type := FsPath → Option Content

/-- Subtree test: `isUnder base p` is true when `p` lies in the subtree
rooted at `base`, i.e. `base` is a path-component ancestor of `p`. -/
def isUnder (base p : FsPath) : Bool := List.isPrefixOf base p

/-- Python `Path(p).mkdir(parents=True, exist_ok=True)`: every missing
ancestor of `p` and `p` itself become directories; existing entries are
untouched. -/
def mkdirTreeFS (fs : FS) (p : FsPath) : FS :=
  fun q => if isUnder q p && (fs q).isNone then some Content.dir else fs q

/-- Python `Path(p).mkdir(exist_ok=True)` (no parents): only `p` itself
is created when missing; everything else is untouched. -/
def mkdirOneFS (fs : FS) (p : FsPath) : FS :=
  fun q => if (q == p) && (fs q).isNone then some Content.dir else fs q

/-- Python `shutil.rmtree(p)`: the whole subtree rooted at `p` is removed. -/
def rmtree (fs : FS) (p : FsPath) : FS :=
  fun q => if isUnder p q then none else fs q

/-- Python `shutil.copytree(src, dst)`: after the call, the subtree at
`dst` mirrors the subtree at `src`; nothing else changes. -/
def copytree (fs : FS) (src dst : FsPath) : FS :=
  fun q => if isUnder dst q then fs (src ++ q.drop dst.length) else fs q

/-- One iteration of the language loop of `download_emilia`:
`src = cache/lang`, `dst = raw_dir/lang`; if `dst` exists it is removed
recursively, then `src` is copied to `dst`. -/
def emiliaLangCopy (cache raw_dir : FsPath) (lang : String) (fs : FS) : FS :=
  copytree
    (if (fs (raw_dir ++ [lang])).isSome then rmtree fs (raw_dir ++ [lang]) else fs)
    (cache ++ [lang]) (raw_dir ++ [lang])

/-- The file-system effect of a successful run of `download_emilia`,
given the local snapshot path `cache` returned by `snapshot_download`:
create `output_dir/Emilia_Dataset` (with parents) and its `raw`
subdirectory, then run the copy loop for "EN" and "ZH" in order. -/
def download_emilia_fs (cache output_dir : FsPath) (fs : FS) : FS :=
  (["EN", "ZH"]).foldl
    (fun acc lang => emiliaLangCopy cache (output_dir ++ ["Emilia_Dataset", "raw"]) lang acc)
    (mkdirOneFS (mkdirTreeFS fs (output_dir ++ ["Emilia_Dataset"]))
      (output_dir ++ ["Emilia_Dataset", "raw"]))

/-- An observable action performed by the workflow: each constructor is
one call to an external collaborator in download_datasets.py, tagged with
the outcome the outside world gave it. -/
inductive Event where
  | whoami (ok : Bool)
  | tokenLogin (token : String) (ok : Bool)
  | interactiveLogin (ok : Bool)
  | snapshotDownload (repo revision : String) (ok : Bool)
  | mkdirTree (p : FsPath)
  | mkdirOne (p : FsPath)
  | copyLang (lang : String) (ok : Bool)
  | wget (url : String) (destDir : FsPath) (fileName : String) (exit : Nat)
  | tarExtract (destDir : FsPath) (archiveName : String) (exit : Nat)
  | unlink (destDir : FsPath) (fileName : String)
deriving DecidableEq

/-- True for the three authentication-related events of check_hf_login. -/
def isAuthEvent : Event → Bool
  | Event.whoami _ => true
  | Event.tokenLogin _ _ => true
  | Event.interactiveLogin _ => true
  | _ => false

/-- True exactly for wget (external download tool) events. -/
def isWget : Event → Bool
  | Event.wget _ _ _ _ => true
  | _ => false

/-- The oracle describing the outside world for one run: the expanded
home directory, whether HfApi.whoami raises (and with which message),
the HUGGINGFACE_ACCESS_TOKEN environment variable, whether each login
path succeeds, whether snapshot_download succeeds, whether each language
copy of download_emilia succeeds, and the exit code wget gives for each
URL and tar gives for each archive name. -/
structure Env where
  home : FsPath
  whoamiExc : Option String
  hfToken : Option String
  tokenLoginOk : Bool
  interactiveLoginOk : Bool
  snapshotOk : Bool
  copyOk : String → Bool
  wgetExit : String → Nat
  tarExit : String → Nat

/-- check_hf_login: try api.whoami(); on any exception (whatever its
message), fall back to the HUGGINGFACE_ACCESS_TOKEN environment variable
if set (non-interactive login), else to the interactive login flow.  The
Bool is true when the Python function returns without raising. -/
def check_hf_login (env : Env) : List Event × Bool :=
  match env.whoamiExc with
  | none => ([Event.whoami true], true)
  | some _ =>
    match env.hfToken with
    | some t => ([Event.whoami false, Event.tokenLogin t env.tokenLoginOk], env.tokenLoginOk)
    | none =>
      ([Event.whoami false, Event.interactiveLogin env.interactiveLoginOk],
       env.interactiveLoginOk)

/-- Run a sequence of steps, stopping at the first failing step (a raised
exception aborts a Python for-loop and the enclosing function). -/
def runSeq {α : Type} (f : α → List Event × Bool) : List α → List Event × Bool
  | [] => ([], true)
  | x :: xs =>
    if (f x).2 then ((f x).1 ++ (runSeq f xs).1, (runSeq f xs).2)
    else ((f x).1, false)

/-- The Hugging Face repository id used by download_emilia. -/
def emiliaRepo : String := "amphion/Emilia-Dataset"

/-- The default value of the revision parameter of download_emilia,
applied at its call site in main. -/
def defaultRevision : String := "fc71e07"

/-- One iteration of the copy loop of download_emilia as a traced step. -/
def emiliaCopyStep (env : Env) (lang : String) : List Event × Bool :=
  ([Event.copyLang lang (env.copyOk lang)], env.copyOk lang)

/-- download_emilia as a trace: snapshot_download the pinned revision,
create output_dir/Emilia_Dataset (with parents) and its raw subdirectory,
then copy the EN and ZH subtrees in order.  A snapshot failure aborts
before any directory is created; a copy failure aborts the loop. -/
def download_emilia (env : Env) (output_dir : FsPath) (revision : String) :
    List Event × Bool :=
  if env.snapshotOk then
    (Event.snapshotDownload emiliaRepo revision true ::
     Event.mkdirTree (output_dir ++ ["Emilia_Dataset"]) ::
     Event.mkdirOne (output_dir ++ ["Emilia_Dataset", "raw"]) ::
     (runSeq (emiliaCopyStep env) ["EN", "ZH"]).1,
     (runSeq (emiliaCopyStep env) ["EN", "ZH"]).2)
  else ([Event.snapshotDownload emiliaRepo revision false], false)

/-- The fixed ordered subset list of download_libritts. -/
def subsets : List String := ["train-clean-100", "train-clean-360", "train-other-500"]

/-- The fixed base URL of download_libritts. -/
def base_url : String := "https://www.openslr.org/resources/60"

/-- The archive filename built for a subset: subset.tar.gz. -/
def tar_file (subset : String) : String := subset ++ ".tar.gz"

/-- The download URL built for a subset: base_url/subset.tar.gz. -/
def url_of (subset : String) : String := base_url ++ "/" ++ tar_file subset

/-- One iteration of the subset loop of download_libritts: wget the
archive into output_path (check=True: a nonzero exit raises), tar-extract
it into output_path (likewise), then unlink the archive. -/
def subsetStep (env : Env) (output_path : FsPath) (subset : String) :
    List Event × Bool :=
  if env.wgetExit (url_of subset) = 0 then
    if env.tarExit (tar_file subset) = 0 then
      ([Event.wget (url_of subset) output_path (tar_file subset) 0,
        Event.tarExtract output_path (tar_file subset) 0,
        Event.unlink output_path (tar_file subset)], true)
    else
      ([Event.wget (url_of subset) output_path (tar_file subset) 0,
        Event.tarExtract output_path (tar_file subset) (env.tarExit (tar_file subset))],
       false)
  else
    ([Event.wget (url_of subset) output_path (tar_file subset)
        (env.wgetExit (url_of subset))], false)

/-- download_libritts as a trace: create output_dir/LibriTTS (with
parents), then process the three fixed subsets in order, aborting at the
first nonzero exit code. -/
def download_libritts (env : Env) (output_dir : FsPath) : List Event × Bool :=
  (Event.mkdirTree (output_dir ++ ["LibriTTS"]) ::
     (runSeq (subsetStep env (output_dir ++ ["LibriTTS"])) subsets).1,
   (runSeq (subsetStep env (output_dir ++ ["LibriTTS"])) subsets).2)

/-- main resolves its optional output_dir argument, defaulting to the
expanded user-level path HOME/datasets. -/
def resolveDir (env : Env) (output_dir : Option FsPath) : FsPath :=
  output_dir.getD (env.home ++ ["datasets"])

/-- main: resolve the output directory, run check_hf_login, then
download_emilia (with the default revision), then download_libritts; any
raising step aborts the rest. -/
def main (env : Env) (output_dir : Option FsPath) : List Event × Bool :=
  if (check_hf_login env).2 then
    if (download_emilia env (resolveDir env output_dir) defaultRevision).2 then
      ((check_hf_login env).1
        ++ (download_emilia env (resolveDir env output_dir) defaultRevision).1
        ++ (download_libritts env (resolveDir env output_dir)).1,
       (download_libritts env (resolveDir env output_dir)).2)
    else
      ((check_hf_login env).1
        ++ (download_emilia env (resolveDir env output_dir) defaultRevision).1, false)
  else ((check_hf_login env).1, false)

/-- Both external tools succeed for this subset. -/
def subset_ok (env : Env) (s : String) : Bool :=
  (env.wgetExit (url_of s) == 0) && (env.tarExit (tar_file s) == 0)

/-- The subset at each position of the fixed order of download_libritts. -/
def nthSubset : Fin 3 → String
  | ⟨0, _⟩ => "train-clean-100"
  | ⟨1, _⟩ => "train-clean-360"
  | ⟨2, _⟩ => "train-other-500"

/-- Archive bookkeeping: a successful wget adds the archive file, unlink
removes it; other events do not touch archive files. -/
def archStep (acc : List String) (e : Event) : List String :=
  match e with
  | Event.wget _ _ f x => if x = 0 then acc ++ [f] else acc
  | Event.unlink _ f => acc.filter (fun g => g != f)
  | _ => acc

/-- The archive files still present after a trace. -/
def archivesAfter (evs : List Event) : List String := evs.foldl archStep []

/-- Fold step checking that whenever a download starts, no archive from an
earlier subset is still present. -/
def cleanStep : Bool × List String → Event → Bool × List String
  | (b, pending), Event.wget _ _ f x =>
      (b && pending.isEmpty, if x = 0 then pending ++ [f] else pending)
  | (b, pending), Event.unlink _ f => (b, pending.filter (fun g => g != f))
  | acc, _ => acc

/-- True when every download in the trace starts with no residual archive
file present: each archive is deleted before the next download begins. -/
def cleanBeforeDownload (evs : List Event) : Bool := (evs.foldl cleanStep (true, [])).1

/-- The archives successfully extracted in a trace, in order. -/
def extractedOk (evs : List Event) : List String :=
  evs.filterMap (fun e => match e with
    | Event.tarExtract _ f x => if x = 0 then some f else none
    | _ => none)

/-- Fixture: an environment in which every external step succeeds. -/
def envAllOk : Env where
  home := ["home", "user"]
  whoamiExc := none
  hfToken := none
  tokenLoginOk := true
  interactiveLoginOk := true
  snapshotOk := true
  copyOk := fun _ => true
  wgetExit := fun _ => 0
  tarExit := fun _ => 0

/-- Fixture: wget fails (exit 8) for train-clean-360 only. -/
def envC1 : Env where
  home := ["home", "user"]
  whoamiExc := none
  hfToken := none
  tokenLoginOk := true
  interactiveLoginOk := true
  snapshotOk := true
  copyOk := fun _ => true
  wgetExit := fun u => if u = url_of "train-clean-360" then 8 else 0
  tarExit := fun _ => 0

/-- Fixture: whoami raises, an environment token is present and the token
login succeeds; everything downstream succeeds. -/
def envWhoamiFail : Env where
  home := ["home", "user"]
  whoamiExc := some "connection reset"
  hfToken := some "hf_abc"
  tokenLoginOk := true
  interactiveLoginOk := true
  snapshotOk := true
  copyOk := fun _ => true
  wgetExit := fun _ => 0
  tarExit := fun _ => 0

/-- Fixture: whoami raises, an environment token is present but the token
login itself fails. -/
def envTokenFail : Env where
  home := ["home", "user"]
  whoamiExc := some "expired credentials"
  hfToken := some "hf_bad"
  tokenLoginOk := false
  interactiveLoginOk := true
  snapshotOk := true
  copyOk := fun _ => true
  wgetExit := fun _ => 0
  tarExit := fun _ => 0

/-- Fixture file system for the copy claims: a snapshot cache holding EN
and ZH subtrees, and a destination holding a stale file from a prior run. -/
def fsC2 : FS := fun p =>
  if p = ["cache", "EN"] then some Content.dir
  else if p = ["cache", "EN", "a.wav"] then some (Content.file "new-audio")
  else if p = ["cache", "ZH"] then some Content.dir
  else if p = ["out"] then some Content.dir
  else if p = ["out", "Emilia_Dataset"] then some Content.dir
  else if p = ["out", "Emilia_Dataset", "raw"] then some Content.dir
  else if p = ["out", "Emilia_Dataset", "raw", "EN"] then some Content.dir
  else if p = ["out", "Emilia_Dataset", "raw", "EN", "stale.wav"] then
    some (Content.file "old-audio")
  else if p = ["out", "keep.txt"] then some (Content.file "keep")
  else none

/-- Fixture: an empty file system. -/
def fsEmpty : FS := fun _ => none

theorem isUnder_iff (b p : FsPath) : isUnder b p = true ↔ ∃ r, p = b ++ r := by
  unfold isUnder
  rw [List.isPrefixOf_iff_prefix]
  constructor
  · rintro ⟨t, ht⟩
    exact ⟨t, ht.symm⟩
  · rintro ⟨r, rfl⟩
    exact ⟨r, rfl⟩

theorem isUnder_append_self (b r : FsPath) : isUnder b (b ++ r) = true :=
  (isUnder_iff b (b ++ r)).mpr ⟨r, rfl⟩

theorem isUnder_refl (b : FsPath) : isUnder b b = true := by
  have h := isUnder_append_self b []
  simpa using h

theorem isUnder_trans {a b c : FsPath} (h1 : isUnder a b = true)
    (h2 : isUnder b c = true) : isUnder a c = true := by
  obtain ⟨r, rfl⟩ := (isUnder_iff a b).mp h1
  obtain ⟨s, rfl⟩ := (isUnder_iff (a ++ r) c).mp h2
  exact (isUnder_iff a ((a ++ r) ++ s)).mpr ⟨r ++ s, by simp [List.append_assoc]⟩

theorem isUnder_length {a b : FsPath} (h : isUnder a b = true) :
    a.length ≤ b.length := by
  obtain ⟨r, rfl⟩ := (isUnder_iff a b).mp h
  simp

theorem isUnder_false_of_length {a b : FsPath} (h : b.length < a.length) :
    isUnder a b = false := by
  cases hu : isUnder a b with
  | false => rfl
  | true => exact absurd (isUnder_length hu) (by omega)

theorem isUnder_antisymm {a b : FsPath} (h1 : isUnder a b = true)
    (h2 : isUnder b a = true) : a = b := by
  obtain ⟨r, rfl⟩ := (isUnder_iff a b).mp h1
  have hl2 := isUnder_length h2
  rw [List.length_append] at hl2
  have hr : r.length = 0 := by omega
  have : r = [] := List.eq_nil_of_length_eq_zero hr
  simp [this]

theorem isUnder_of_take {b : FsPath} (n : Nat) : isUnder (b.take n) b = true :=
  (isUnder_iff (b.take n) b).mpr ⟨b.drop n, (List.take_append_drop n b).symm⟩

theorem isUnder_comparable {a b c : FsPath} (h1 : isUnder a c = true)
    (h2 : isUnder b c = true) : isUnder a b = true ∨ isUnder b a = true := by
  obtain ⟨r, hr⟩ := (isUnder_iff a c).mp h1
  obtain ⟨s, hs⟩ := (isUnder_iff b c).mp h2
  have h4 : a ++ r = b ++ s := by rw [← hr, ← hs]
  by_cases hl : a.length ≤ b.length
  · left
    have ha : b.take a.length = a := by
      have h3 : (a ++ r).take a.length = a := List.take_left a r
      rw [h4, List.take_append_of_le_length hl] at h3
      exact h3
    refine (isUnder_iff a b).mpr ⟨b.drop a.length, ?_⟩
    conv_lhs => rw [← List.take_append_drop a.length b]
    rw [ha]
  · right
    have hl2 : b.length ≤ a.length := by omega
    have hb : a.take b.length = b := by
      have h3 : (b ++ s).take b.length = b := List.take_left b s
      rw [← h4, List.take_append_of_le_length hl2] at h3
      exact h3
    refine (isUnder_iff b a).mpr ⟨a.drop b.length, ?_⟩
    conv_lhs => rw [← List.take_append_drop b.length a]
    rw [hb]

theorem isUnder_concat {c b : FsPath} {x : String}
    (h : isUnder c (b ++ [x]) = true) : isUnder c b = true ∨ c = b ++ [x] := by
  obtain ⟨t, ht⟩ := (isUnder_iff c (b ++ [x])).mp h
  cases t with
  | nil => right; simpa using ht.symm
  | cons hd tl =>
    left
    have hlen : c.length ≤ b.length := by
      have := congrArg List.length ht
      simp at this
      omega
    have hc : b.take c.length = c := by
      have h3 : (c ++ hd :: tl).take c.length = c := List.take_left c (hd :: tl)
      rw [← ht, List.take_append_of_le_length hlen] at h3
      exact h3
    refine (isUnder_iff c b).mpr ⟨b.drop c.length, ?_⟩
    conv_lhs => rw [← List.take_append_drop c.length b]
    rw [hc]

theorem isUnder_ne_head {b : FsPath} {x y : String} {r : FsPath} (hxy : x ≠ y) :
    isUnder (b ++ [x]) (b ++ y :: r) = false := by
  cases hu : isUnder (b ++ [x]) (b ++ y :: r) with
  | false => rfl
  | true =>
    obtain ⟨t, ht⟩ := (isUnder_iff (b ++ [x]) (b ++ y :: r)).mp hu
    rw [List.append_assoc] at ht
    have h2 : y :: r = [x] ++ t := List.append_cancel_left ht
    simp at h2
    exact absurd h2.1.symm hxy

theorem copytree_under {fs : FS} {src dst q : FsPath} (h : isUnder dst q = true) :
    copytree fs src dst q = fs (src ++ q.drop dst.length) := by
  simp [copytree, h]

theorem copytree_not {fs : FS} {src dst q : FsPath} (h : isUnder dst q = false) :
    copytree fs src dst q = fs q := by
  simp [copytree, h]

theorem rmtree_not {fs : FS} {p q : FsPath} (h : isUnder p q = false) :
    rmtree fs p q = fs q := by
  simp [rmtree, h]

theorem mkdirTreeFS_not {fs : FS} {p q : FsPath} (h : isUnder q p = false) :
    mkdirTreeFS fs p q = fs q := by
  simp [mkdirTreeFS, h]

theorem mkdirOneFS_not {fs : FS} {p q : FsPath} (h : q ≠ p) :
    mkdirOneFS fs p q = fs q := by
  simp [mkdirOneFS, h]

theorem emiliaLangCopy_not {cache raw_dir : FsPath} {lang : String} {fs : FS}
    {q : FsPath} (h : isUnder (raw_dir ++ [lang]) q = false) :
    emiliaLangCopy cache raw_dir lang fs q = fs q := by
  unfold emiliaLangCopy
  by_cases hs : (fs (raw_dir ++ [lang])).isSome
  · simp only [hs, if_true]
    rw [copytree_not h, rmtree_not h]
  · simp only [Bool.not_eq_true] at hs
    simp only [hs]
    rw [if_neg Bool.false_ne_true, copytree_not h]

theorem emiliaLangCopy_under {cache raw_dir : FsPath} {lang : String} {fs : FS}
    {rest : FsPath}
    (hdisj : isUnder (raw_dir ++ [lang]) (cache ++ [lang] ++ rest) = false) :
    emiliaLangCopy cache raw_dir lang fs ((raw_dir ++ [lang]) ++ rest)
      = fs (cache ++ [lang] ++ rest) := by
  unfold emiliaLangCopy
  have hu : isUnder (raw_dir ++ [lang]) ((raw_dir ++ [lang]) ++ rest) = true :=
    isUnder_append_self _ _
  have hdrop : ((raw_dir ++ [lang]) ++ rest).drop (raw_dir ++ [lang]).length = rest :=
    List.drop_left _ _
  by_cases hs : (fs (raw_dir ++ [lang])).isSome
  · simp only [hs, if_true]
    rw [copytree_under hu, hdrop, rmtree_not hdisj]
  · simp only [Bool.not_eq_true] at hs
    simp only [hs]
    rw [if_neg Bool.false_ne_true, copytree_under hu, hdrop]


theorem check_auth_only (env : Env) :
    ∀ e ∈ (check_hf_login env).1, isAuthEvent e = true := by
  intro e he
  cases hw : env.whoamiExc with
  | none =>
    simp [check_hf_login, hw] at he
    simp [he, isAuthEvent]
  | some msg =>
    cases ht : env.hfToken with
    | some t =>
      simp [check_hf_login, hw, ht] at he
      rcases he with he | he <;> simp [he, isAuthEvent]
    | none =>
      simp [check_hf_login, hw, ht] at he
      rcases he with he | he <;> simp [he, isAuthEvent]

theorem runSeq_mem {α : Type} {f : α → List Event × Bool} {xs : List α} {e : Event}
    (h : e ∈ (runSeq f xs).1) : ∃ x ∈ xs, e ∈ (f x).1 := by
  induction xs with
  | nil => simp [runSeq] at h
  | cons x xs ih =>
    by_cases hx : (f x).2
    · simp only [runSeq, hx, if_true, List.mem_append] at h
      rcases h with h | h
      · exact ⟨x, by simp, h⟩
      · obtain ⟨y, hy, hey⟩ := ih h
        exact ⟨y, by simp [hy], hey⟩
    · simp only [runSeq, hx, if_false] at h
      exact ⟨x, by simp, h⟩

theorem runSeq_true_iff {α : Type} {f : α → List Event × Bool} {xs : List α} :
    (runSeq f xs).2 = true ↔ ∀ x ∈ xs, (f x).2 = true := by
  induction xs with
  | nil => simp [runSeq]
  | cons x xs ih =>
    by_cases hx : (f x).2
    · simp [runSeq, hx, ih]
    · constructor
      · intro hh
        simp [runSeq, hx] at hh
      · intro hh
        exact absurd (hh x (by simp)) hx

theorem runSeq_true_sub {α : Type} {f : α → List Event × Bool} {xs : List α}
    (h : (runSeq f xs).2 = true) :
    ∀ x ∈ xs, ∀ e ∈ (f x).1, e ∈ (runSeq f xs).1 := by
  induction xs with
  | nil => simp
  | cons y ys ih =>
    have hy : (f y).2 = true := (runSeq_true_iff.mp h) y (by simp)
    have hys : (runSeq f ys).2 = true := by
      rw [runSeq_true_iff]
      intro z hz
      exact (runSeq_true_iff.mp h) z (by simp [hz])
    intro x hx e he
    simp only [runSeq, hy, if_true, List.mem_append]
    rcases List.mem_cons.mp hx with rfl | hx2
    · exact Or.inl he
    · exact Or.inr (ih hys x hx2 e he)

theorem emilia_no_wget (env : Env) (d : FsPath) (rev : String) :
    ∀ e ∈ (download_emilia env d rev).1, isWget e = false := by
  intro e he
  by_cases hs : env.snapshotOk
  · simp only [download_emilia, hs, if_true, List.mem_cons] at he
    rcases he with rfl | rfl | rfl | he
    · rfl
    · rfl
    · rfl
    · obtain ⟨x, hx, hex⟩ := runSeq_mem he
      simp [emiliaCopyStep] at hex
      simp [hex, isWget]
  · simp [download_emilia, hs] at he
    simp [he, isWget]

theorem emilia_snapshot_mem (env : Env) (d : FsPath) (rev : String)
    {r rev2 : String} {ok : Bool}
    (h : Event.snapshotDownload r rev2 ok ∈ (download_emilia env d rev).1) :
    r = emiliaRepo ∧ rev2 = rev ∧ ok = env.snapshotOk := by
  by_cases hs : env.snapshotOk
  · simp only [download_emilia, hs, if_true, List.mem_cons] at h
    rcases h with h | h | h | h
    · have := Event.snapshotDownload.inj h
      exact ⟨this.1, this.2.1, by rw [this.2.2, hs]⟩
    · exact absurd h (by simp)
    · exact absurd h (by simp)
    · obtain ⟨x, hx, hex⟩ := runSeq_mem h
      simp [emiliaCopyStep] at hex
  · simp [download_emilia, hs] at h
    refine ⟨h.1, h.2.1, ?_⟩
    rw [h.2.2]
    simp [hs]

theorem emilia_true_iff (env : Env) (d : FsPath) (rev : String) :
    (download_emilia env d rev).2 = true ↔
      env.snapshotOk = true ∧ env.copyOk "EN" = true ∧ env.copyOk "ZH" = true := by
  cases hs : env.snapshotOk with
  | true =>
    have hval : (download_emilia env d rev).2 = (runSeq (emiliaCopyStep env) ["EN", "ZH"]).2 := by
      simp [download_emilia, hs]
    rw [hval, runSeq_true_iff]
    constructor
    · intro h
      refine ⟨rfl, ?_, ?_⟩
      · simpa [emiliaCopyStep] using h "EN" (by simp)
      · simpa [emiliaCopyStep] using h "ZH" (by simp)
    · rintro ⟨h1, h2, h3⟩ x hx
      rcases (show x = "EN" ∨ x = "ZH" by simpa using hx) with rfl | rfl
      · simpa [emiliaCopyStep] using h2
      · simpa [emiliaCopyStep] using h3
  | false =>
    constructor
    · intro h
      simp [download_emilia, hs] at h
    · rintro ⟨h1, h2, h3⟩
      exact absurd h1 (by simp)

theorem subsetStep_wget_mem {env : Env} {P : FsPath} {s : String}
    {u : String} {p : FsPath} {f : String} {x : Nat}
    (h : Event.wget u p f x ∈ (subsetStep env P s).1) :
    u = url_of s ∧ p = P ∧ f = tar_file s := by
  by_cases hw : env.wgetExit (url_of s) = 0
  · by_cases htar : env.tarExit (tar_file s) = 0
    · simp only [subsetStep, hw, htar, if_true, List.mem_cons] at h
      rcases h with h | h | h | h
      · have := Event.wget.inj h
        exact ⟨this.1, this.2.1, this.2.2.1⟩
      · exact absurd h (by simp)
      · exact absurd h (by simp)
      · simp at h
    · simp only [subsetStep, hw, htar, if_true, if_false, List.mem_cons] at h
      rcases h with h | h | h
      · have := Event.wget.inj h
        exact ⟨this.1, this.2.1, this.2.2.1⟩
      · exact absurd h (by simp)
      · simp at h
  · simp only [subsetStep, hw, if_false, List.mem_singleton] at h
    have := Event.wget.inj h
    exact ⟨this.1, this.2.1, this.2.2.1⟩

theorem subsetStep_true_iff {env : Env} {P : FsPath} {s : String} :
    (subsetStep env P s).2 = true ↔
      env.wgetExit (url_of s) = 0 ∧ env.tarExit (tar_file s) = 0 := by
  by_cases hw : env.wgetExit (url_of s) = 0
  · by_cases htar : env.tarExit (tar_file s) = 0
    · simp [subsetStep, hw, htar]
    · simp [subsetStep, hw, htar]
  · simp [subsetStep, hw]

theorem subsetStep_true_eq {env : Env} {P : FsPath} {s : String}
    (hw : env.wgetExit (url_of s) = 0) (htar : env.tarExit (tar_file s) = 0) :
    subsetStep env P s =
      ([Event.wget (url_of s) P (tar_file s) 0,
        Event.tarExtract P (tar_file s) 0,
        Event.unlink P (tar_file s)], true) := by
  simp [subsetStep, hw, htar]

theorem libritts_true_iff (env : Env) (d : FsPath) :
    (download_libritts env d).2 = true ↔
      ∀ s ∈ subsets, env.wgetExit (url_of s) = 0 ∧ env.tarExit (tar_file s) = 0 := by
  show (runSeq (subsetStep env (d ++ ["LibriTTS"])) subsets).2 = true ↔ _
  rw [runSeq_true_iff]
  constructor
  · intro h s hs
    exact subsetStep_true_iff.mp (h s hs)
  · intro h s hs
    exact subsetStep_true_iff.mpr (h s hs)

theorem libritts_no_auth (env : Env) (d : FsPath) :
    ∀ e ∈ (download_libritts env d).1, isAuthEvent e = false := by
  intro e he
  simp only [download_libritts, List.mem_cons] at he
  rcases he with rfl | he
  · rfl
  · obtain ⟨s, hs, hes⟩ := runSeq_mem he
    by_cases hw : env.wgetExit (url_of s) = 0
    · by_cases htar : env.tarExit (tar_file s) = 0
      · simp only [subsetStep, hw, htar, if_true, List.mem_cons] at hes
        rcases hes with rfl | rfl | rfl | hes
        · rfl
        · rfl
        · rfl
        · simp at hes
      · simp only [subsetStep, hw, htar, if_true, if_false, List.mem_cons] at hes
        rcases hes with rfl | rfl | hes
        · rfl
        · rfl
        · simp at hes
    · simp only [subsetStep, hw, if_false, List.mem_singleton] at hes
      subst hes
      rfl

theorem libritts_no_snapshot (env : Env) (d : FsPath) {r rev : String} {ok : Bool} :
    Event.snapshotDownload r rev ok ∉ (download_libritts env d).1 := by
  intro he
  simp only [download_libritts, List.mem_cons] at he
  rcases he with he | he
  · exact absurd he (by simp)
  · obtain ⟨s, hs, hes⟩ := runSeq_mem he
    by_cases hw : env.wgetExit (url_of s) = 0
    · by_cases htar : env.tarExit (tar_file s) = 0
      · simp [subsetStep, hw, htar] at hes
      · simp [subsetStep, hw, htar] at hes
    · simp [subsetStep, hw] at hes

theorem main_gate_false {env : Env} (od : Option FsPath)
    (h : (check_hf_login env).2 = false) :
    main env od = ((check_hf_login env).1, false) := by
  simp [main, h]

theorem main_emilia_false {env : Env} (od : Option FsPath)
    (h1 : (check_hf_login env).2 = true)
    (h2 : (download_emilia env (resolveDir env od) defaultRevision).2 = false) :
    main env od =
      ((check_hf_login env).1
        ++ (download_emilia env (resolveDir env od) defaultRevision).1, false) := by
  simp [main, h1, h2]

theorem main_decomp {env : Env} (od : Option FsPath)
    (h1 : (check_hf_login env).2 = true)
    (h2 : (download_emilia env (resolveDir env od) defaultRevision).2 = true) :
    main env od =
      ((check_hf_login env).1
        ++ (download_emilia env (resolveDir env od) defaultRevision).1
        ++ (download_libritts env (resolveDir env od)).1,
       (download_libritts env (resolveDir env od)).2) := by
  simp [main, h1, h2]

theorem subset_ok_true_cases {env : Env} {s : String} (h : subset_ok env s = true) :
    env.wgetExit (url_of s) = 0 ∧ env.tarExit (tar_file s) = 0 := by
  simpa [subset_ok] using h

theorem subset_ok_false_cases {env : Env} {s : String} (h : subset_ok env s = false) :
    env.wgetExit (url_of s) ≠ 0 ∨
      (env.wgetExit (url_of s) = 0 ∧ env.tarExit (tar_file s) ≠ 0) := by
  by_cases hw : env.wgetExit (url_of s) = 0
  · right
    refine ⟨hw, fun htar => ?_⟩
    simp [subset_ok, hw, htar] at h
  · left
    exact hw

theorem subsetStep_true {env : Env} {P : FsPath} {s : String}
    (h : subset_ok env s = true) : (subsetStep env P s).2 = true :=
  subsetStep_true_iff.mpr (subset_ok_true_cases h)

theorem subsetStep_false {env : Env} {P : FsPath} {s : String}
    (h : subset_ok env s = false) : (subsetStep env P s).2 = false := by
  cases hres : (subsetStep env P s).2 with
  | false => rfl
  | true =>
    obtain ⟨hw, htar⟩ := subsetStep_true_iff.mp hres
    simp [subset_ok, hw, htar] at h

theorem subsetStep_tar_mem {env : Env} {P : FsPath} {s : String}
    {p : FsPath} {f : String} {x : Nat}
    (h : Event.tarExtract p f x ∈ (subsetStep env P s).1) :
    p = P ∧ f = tar_file s := by
  by_cases hw : env.wgetExit (url_of s) = 0
  · by_cases htar : env.tarExit (tar_file s) = 0
    · simp only [subsetStep, hw, htar, if_true, List.mem_cons] at h
      rcases h with h | h | h | h
      · exact absurd h (by simp)
      · have := Event.tarExtract.inj h
        exact ⟨this.1, this.2.1⟩
      · exact absurd h (by simp)
      · simp at h
    · simp only [subsetStep, hw, htar, if_true, if_false, List.mem_cons] at h
      rcases h with h | h | h
      · exact absurd h (by simp)
      · have := Event.tarExtract.inj h
        exact ⟨this.1, this.2.1⟩
      · simp at h
  · simp only [subsetStep, hw, if_false, List.mem_singleton] at h
    exact absurd h (by simp)

theorem nthSubsetMk0 (h : 0 < 3) : nthSubset ⟨0, h⟩ = "train-clean-100" := rfl

theorem nthSubsetMk1 (h : 1 < 3) : nthSubset ⟨1, h⟩ = "train-clean-360" := rfl

theorem nthSubsetMk2 (h : 2 < 3) : nthSubset ⟨2, h⟩ = "train-other-500" := rfl

theorem nthSubsetLit0 : nthSubset 0 = "train-clean-100" := rfl

theorem nthSubsetLit1 : nthSubset 1 = "train-clean-360" := rfl

theorem nthSubsetLit2 : nthSubset 2 = "train-other-500" := rfl

/-- Claim C1: in download_libritts, with the fixed order
train-clean-100, train-clean-360, train-other-500, if the download tool
or the extraction tool exits nonzero for subset k (all earlier subsets
succeeding), then download_libritts raises (and the whole workflow run by
main reports failure), every subset before k has been fully extracted and
its archive deleted, and no subset after k is ever downloaded or
extracted. -/
theorem c1_subset_failure_aborts (env : Env) (k : Fin 3)
    (hb : ∀ j : Fin 3, j < k → subset_ok env (nthSubset j) = true)
    (hk : subset_ok env (nthSubset k) = false) :
    (∀ d : FsPath,
      (download_libritts env d).2 = false
      ∧ (∀ j : Fin 3, j < k →
          Event.tarExtract (d ++ ["LibriTTS"]) (tar_file (nthSubset j)) 0
              ∈ (download_libritts env d).1
          ∧ Event.unlink (d ++ ["LibriTTS"]) (tar_file (nthSubset j))
              ∈ (download_libritts env d).1)
      ∧ (∀ j : Fin 3, k < j →
          (∀ p f x, Event.wget (url_of (nthSubset j)) p f x ∉ (download_libritts env d).1)
          ∧ (∀ p x, Event.tarExtract p (tar_file (nthSubset j)) x ∉ (download_libritts env d).1)))
    ∧ (∀ od : Option FsPath, (main env od).2 = false) := by
  have hmain : (∀ d : FsPath, (download_libritts env d).2 = false) →
      ∀ od : Option FsPath, (main env od).2 = false := by
    intro hlib od
    by_cases h1 : (check_hf_login env).2
    · by_cases h2 : (download_emilia env (resolveDir env od) defaultRevision).2
      · rw [main_decomp od h1 h2]
        exact hlib _
      · rw [main_emilia_false od h1 (by simpa using h2)]
    · rw [main_gate_false od (by simpa using h1)]
  have hbody : ∀ d : FsPath,
      (download_libritts env d).2 = false
      ∧ (∀ j : Fin 3, j < k →
          Event.tarExtract (d ++ ["LibriTTS"]) (tar_file (nthSubset j)) 0
              ∈ (download_libritts env d).1
          ∧ Event.unlink (d ++ ["LibriTTS"]) (tar_file (nthSubset j))
              ∈ (download_libritts env d).1)
      ∧ (∀ j : Fin 3, k < j →
          (∀ p f x, Event.wget (url_of (nthSubset j)) p f x ∉ (download_libritts env d).1)
          ∧ (∀ p x, Event.tarExtract p (tar_file (nthSubset j)) x ∉ (download_libritts env d).1)) := by
    intro d
    have hd1 : (download_libritts env d).1
        = Event.mkdirTree (d ++ ["LibriTTS"])
            :: (runSeq (subsetStep env (d ++ ["LibriTTS"])) subsets).1 := rfl
    have hd2 : (download_libritts env d).2
        = (runSeq (subsetStep env (d ++ ["LibriTTS"])) subsets).2 := rfl
    fin_cases k
    · -- the first subset fails
      have hk0 : subset_ok env "train-clean-100" = false := hk
      have f0 : (subsetStep env (d ++ ["LibriTTS"]) "train-clean-100").2 = false :=
        subsetStep_false hk0
      have hR1 : (runSeq (subsetStep env (d ++ ["LibriTTS"])) subsets).1
          = (subsetStep env (d ++ ["LibriTTS"]) "train-clean-100").1 := by
        simp [subsets, runSeq, f0]
      have hR2 : (runSeq (subsetStep env (d ++ ["LibriTTS"])) subsets).2 = false := by
        simp [subsets, runSeq, f0]
      refine ⟨by rw [hd2, hR2], ?_, ?_⟩
      · intro j hj
        fin_cases j <;> exact absurd hj (by decide)
      · intro j hj
        fin_cases j
        · exact absurd hj (by decide)
        · refine ⟨?_, ?_⟩
          · intro p f x hmem
            rw [hd1, hR1] at hmem
            rcases List.mem_cons.mp hmem with heq | hm
            · exact absurd heq (by simp)
            · exact absurd (subsetStep_wget_mem hm).1 (by decide)
          · intro p x hmem
            rw [hd1, hR1] at hmem
            rcases List.mem_cons.mp hmem with heq | hm
            · exact absurd heq (by simp)
            · exact absurd (subsetStep_tar_mem hm).2 (by decide)
        · refine ⟨?_, ?_⟩
          · intro p f x hmem
            rw [hd1, hR1] at hmem
            rcases List.mem_cons.mp hmem with heq | hm
            · exact absurd heq (by simp)
            · exact absurd (subsetStep_wget_mem hm).1 (by decide)
          · intro p x hmem
            rw [hd1, hR1] at hmem
            rcases List.mem_cons.mp hmem with heq | hm
            · exact absurd heq (by simp)
            · exact absurd (subsetStep_tar_mem hm).2 (by decide)
    · -- the second subset fails
      have hk1 : subset_ok env "train-clean-360" = false := hk
      have h0 : subset_ok env "train-clean-100" = true := hb 0 (by decide)
      obtain ⟨hw0, ht0⟩ := subset_ok_true_cases h0
      have e0 := subsetStep_true_eq (P := d ++ ["LibriTTS"]) hw0 ht0
      have t0 : (subsetStep env (d ++ ["LibriTTS"]) "train-clean-100").2 = true :=
        subsetStep_true h0
      have f1 : (subsetStep env (d ++ ["LibriTTS"]) "train-clean-360").2 = false :=
        subsetStep_false hk1
      have hR1 : (runSeq (subsetStep env (d ++ ["LibriTTS"])) subsets).1
          = (subsetStep env (d ++ ["LibriTTS"]) "train-clean-100").1
            ++ (subsetStep env (d ++ ["LibriTTS"]) "train-clean-360").1 := by
        simp [subsets, runSeq, t0, f1]
      have hR2 : (runSeq (subsetStep env (d ++ ["LibriTTS"])) subsets).2 = false := by
        simp [subsets, runSeq, t0, f1]
      refine ⟨by rw [hd2, hR2], ?_, ?_⟩
      · intro j hj
        fin_cases j
        · constructor
          · rw [hd1, hR1, e0]
            simp [nthSubsetMk0, nthSubsetLit0]
          · rw [hd1, hR1, e0]
            simp [nthSubsetMk0, nthSubsetLit0]
        · exact absurd hj (by decide)
        · exact absurd hj (by decide)
      · intro j hj
        fin_cases j
        · exact absurd hj (by decide)
        · exact absurd hj (by decide)
        · refine ⟨?_, ?_⟩
          · intro p f x hmem
            rw [hd1, hR1] at hmem
            rcases List.mem_cons.mp hmem with heq | hm
            · exact absurd heq (by simp)
            · rcases List.mem_append.mp hm with hm2 | hm2
              · exact absurd (subsetStep_wget_mem hm2).1 (by decide)
              · exact absurd (subsetStep_wget_mem hm2).1 (by decide)
          · intro p x hmem
            rw [hd1, hR1] at hmem
            rcases List.mem_cons.mp hmem with heq | hm
            · exact absurd heq (by simp)
            · rcases List.mem_append.mp hm with hm2 | hm2
              · exact absurd (subsetStep_tar_mem hm2).2 (by decide)
              · exact absurd (subsetStep_tar_mem hm2).2 (by decide)
    · -- the third subset fails
      have hk2 : subset_ok env "train-other-500" = false := hk
      have h0 : subset_ok env "train-clean-100" = true := hb 0 (by decide)
      have h1 : subset_ok env "train-clean-360" = true := hb 1 (by decide)
      obtain ⟨hw0, ht0⟩ := subset_ok_true_cases h0
      obtain ⟨hw1, ht1⟩ := subset_ok_true_cases h1
      have e0 := subsetStep_true_eq (P := d ++ ["LibriTTS"]) hw0 ht0
      have e1 := subsetStep_true_eq (P := d ++ ["LibriTTS"]) hw1 ht1
      have t0 : (subsetStep env (d ++ ["LibriTTS"]) "train-clean-100").2 = true :=
        subsetStep_true h0
      have t1 : (subsetStep env (d ++ ["LibriTTS"]) "train-clean-360").2 = true :=
        subsetStep_true h1
      have f2 : (subsetStep env (d ++ ["LibriTTS"]) "train-other-500").2 = false :=
        subsetStep_false hk2
      have hR1 : (runSeq (subsetStep env (d ++ ["LibriTTS"])) subsets).1
          = (subsetStep env (d ++ ["LibriTTS"]) "train-clean-100").1
            ++ ((subsetStep env (d ++ ["LibriTTS"]) "train-clean-360").1
              ++ (subsetStep env (d ++ ["LibriTTS"]) "train-other-500").1) := by
        simp [subsets, runSeq, t0, t1, f2]
      have hR2 : (runSeq (subsetStep env (d ++ ["LibriTTS"])) subsets).2 = false := by
        simp [subsets, runSeq, t0, t1, f2]
      refine ⟨by rw [hd2, hR2], ?_, ?_⟩
      · intro j hj
        fin_cases j
        · constructor
          · rw [hd1, hR1, e0]
            simp [nthSubsetMk0, nthSubsetLit0]
          · rw [hd1, hR1, e0]
            simp [nthSubsetMk0, nthSubsetLit0]
        · constructor
          · rw [hd1, hR1, e1]
            simp [nthSubsetMk1, nthSubsetLit1]
          · rw [hd1, hR1, e1]
            simp [nthSubsetMk1, nthSubsetLit1]
        · exact absurd hj (by decide)
      · intro j hj
        fin_cases j
        · exact absurd hj (by decide)
        · exact absurd hj (by decide)
        · exact absurd hj (by decide)
  exact ⟨hbody, hmain (fun d => (hbody d).1)⟩

theorem c1_subset_failure_aborts_witness :
    (download_libritts envC1 ["out"]).2 = false ∧ (main envC1 none).2 = false :=
  ⟨((c1_subset_failure_aborts envC1 1 (by decide) (by decide)).1 ["out"]).1,
   (c1_subset_failure_aborts envC1 1 (by decide) (by decide)).2 none⟩

/-- Claim C5: when every wget and tar invocation exits zero,
download_libritts returns normally, no archive file is left in the
LibriTTS output directory, every download starts only after the previous
archive has been deleted, and exactly the three subset archives were
extracted, in order. -/
theorem c5_success_cleanup (env : Env) (d : FsPath)
    (h : ∀ s ∈ subsets, env.wgetExit (url_of s) = 0 ∧ env.tarExit (tar_file s) = 0) :
    (download_libritts env d).2 = true
    ∧ archivesAfter (download_libritts env d).1 = []
    ∧ cleanBeforeDownload (download_libritts env d).1 = true
    ∧ extractedOk (download_libritts env d).1
        = [tar_file "train-clean-100", tar_file "train-clean-360",
           tar_file "train-other-500"] := by
  obtain ⟨hw0, ht0⟩ := h "train-clean-100" (by simp [subsets])
  obtain ⟨hw1, ht1⟩ := h "train-clean-360" (by simp [subsets])
  obtain ⟨hw2, ht2⟩ := h "train-other-500" (by simp [subsets])
  have e0 := subsetStep_true_eq (P := d ++ ["LibriTTS"]) hw0 ht0
  have e1 := subsetStep_true_eq (P := d ++ ["LibriTTS"]) hw1 ht1
  have e2 := subsetStep_true_eq (P := d ++ ["LibriTTS"]) hw2 ht2
  have hd1 : (download_libritts env d).1
      = Event.mkdirTree (d ++ ["LibriTTS"])
          :: (runSeq (subsetStep env (d ++ ["LibriTTS"])) subsets).1 := rfl
  have hd2 : (download_libritts env d).2
      = (runSeq (subsetStep env (d ++ ["LibriTTS"])) subsets).2 := rfl
  have hR1 : (runSeq (subsetStep env (d ++ ["LibriTTS"])) subsets).1
      = [Event.wget (url_of "train-clean-100") (d ++ ["LibriTTS"]) (tar_file "train-clean-100") 0,
         Event.tarExtract (d ++ ["LibriTTS"]) (tar_file "train-clean-100") 0,
         Event.unlink (d ++ ["LibriTTS"]) (tar_file "train-clean-100"),
         Event.wget (url_of "train-clean-360") (d ++ ["LibriTTS"]) (tar_file "train-clean-360") 0,
         Event.tarExtract (d ++ ["LibriTTS"]) (tar_file "train-clean-360") 0,
         Event.unlink (d ++ ["LibriTTS"]) (tar_file "train-clean-360"),
         Event.wget (url_of "train-other-500") (d ++ ["LibriTTS"]) (tar_file "train-other-500") 0,
         Event.tarExtract (d ++ ["LibriTTS"]) (tar_file "train-other-500") 0,
         Event.unlink (d ++ ["LibriTTS"]) (tar_file "train-other-500")] := by
    simp [subsets, runSeq, e0, e1, e2]
  have hR2 : (runSeq (subsetStep env (d ++ ["LibriTTS"])) subsets).2 = true := by
    simp [subsets, runSeq, e0, e1, e2]
  refine ⟨by rw [hd2, hR2], ?_, ?_, ?_⟩
  · rw [hd1, hR1]
    simp [archivesAfter, List.foldl, archStep]
  · rw [hd1, hR1]
    simp [cleanBeforeDownload, List.foldl, cleanStep]
  · rw [hd1, hR1]
    simp [extractedOk]

theorem c5_success_cleanup_witness :
    (download_libritts envAllOk ["out"]).2 = true
    ∧ archivesAfter (download_libritts envAllOk ["out"]).1 = []
    ∧ cleanBeforeDownload (download_libritts envAllOk ["out"]).1 = true
    ∧ extractedOk (download_libritts envAllOk ["out"]).1
        = [tar_file "train-clean-100", tar_file "train-clean-360",
           tar_file "train-other-500"] :=
  c5_success_cleanup envAllOk ["out"] (by decide)

/-- Claim C8: download_libritts uses the fixed base URL and exactly the
fixed ordered subset list, and every download event in any of its runs
targets the LibriTTS output directory with archive filename
subset.tar.gz fetched from base_url/subset.tar.gz. -/
theorem c8_fixed_urls (env : Env) (d : FsPath) :
    subsets = ["train-clean-100", "train-clean-360", "train-other-500"]
    ∧ base_url = "https://www.openslr.org/resources/60"
    ∧ (∀ u p f x, Event.wget u p f x ∈ (download_libritts env d).1 →
        p = d ++ ["LibriTTS"]
        ∧ ∃ s ∈ subsets, f = s ++ ".tar.gz" ∧ u = base_url ++ "/" ++ f) := by
  refine ⟨rfl, rfl, ?_⟩
  intro u p f x hmem
  have hd1 : (download_libritts env d).1
      = Event.mkdirTree (d ++ ["LibriTTS"])
          :: (runSeq (subsetStep env (d ++ ["LibriTTS"])) subsets).1 := rfl
  rw [hd1] at hmem
  rcases List.mem_cons.mp hmem with heq | hm
  · exact absurd heq (by simp)
  · obtain ⟨s, hs, hes⟩ := runSeq_mem hm
    obtain ⟨hu, hp, hf⟩ := subsetStep_wget_mem hes
    refine ⟨hp, s, hs, ?_, ?_⟩
    · rw [hf]
      rfl
    · rw [hu, hf]
      rfl

theorem c8_fixed_urls_witness :
    Event.wget (url_of "train-clean-100") (["out"] ++ ["LibriTTS"])
        (tar_file "train-clean-100") 0 ∈ (download_libritts envAllOk ["out"]).1
    ∧ (["out"] ++ ["LibriTTS"] = ["out"] ++ ["LibriTTS"]
       ∧ ∃ s ∈ subsets, tar_file "train-clean-100" = s ++ ".tar.gz"
           ∧ url_of "train-clean-100" = base_url ++ "/" ++ tar_file "train-clean-100") := by
  have hmem : Event.wget (url_of "train-clean-100") (["out"] ++ ["LibriTTS"])
      (tar_file "train-clean-100") 0 ∈ (download_libritts envAllOk ["out"]).1 := by decide
  exact ⟨hmem, (c8_fixed_urls envAllOk ["out"]).2.2 _ _ _ _ hmem⟩

/-- Claim C3: check_hf_login follows the three-step order: a successful
whoami returns with no login; otherwise a set
HUGGINGFACE_ACCESS_TOKEN leads to the non-interactive token login, else
the interactive login flow runs; and in main the gate runs before any
download, so a failed gate leaves a trace of authentication events only
and no download is attempted. -/
theorem c3_credential_gate (env : Env) (od : Option FsPath) :
    (env.whoamiExc = none → check_hf_login env = ([Event.whoami true], true))
    ∧ (∀ e t, env.whoamiExc = some e → env.hfToken = some t →
        check_hf_login env
          = ([Event.whoami false, Event.tokenLogin t env.tokenLoginOk],
             env.tokenLoginOk))
    ∧ (∀ e, env.whoamiExc = some e → env.hfToken = none →
        check_hf_login env
          = ([Event.whoami false, Event.interactiveLogin env.interactiveLoginOk],
             env.interactiveLoginOk))
    ∧ ((check_hf_login env).2 = false →
        main env od = ((check_hf_login env).1, false)
        ∧ ∀ ev ∈ (main env od).1, isAuthEvent ev = true) := by
  refine ⟨?_, ?_, ?_, ?_⟩
  · intro h
    simp [check_hf_login, h]
  · intro e t he ht
    simp [check_hf_login, he, ht]
  · intro e he ht
    simp [check_hf_login, he, ht]
  · intro hfail
    have hm := main_gate_false od hfail
    refine ⟨hm, ?_⟩
    rw [hm]
    intro ev hev
    exact check_auth_only env ev hev

theorem c3_credential_gate_witness :
    check_hf_login envAllOk = ([Event.whoami true], true)
    ∧ check_hf_login envTokenFail
        = ([Event.whoami false, Event.tokenLogin "hf_bad" false], false) := by
  constructor
  · exact (c3_credential_gate envAllOk none).1 rfl
  · have h := (c3_credential_gate envTokenFail none).2.1 "expired credentials"
      "hf_bad" rfl rfl
    simpa [envTokenFail] using h

/-- Claim C9: check_hf_login swallows the whoami exception whatever its
message: the outcome and trace are decided only by the fallback login
path, are unchanged when the exception message changes, and the failing
identity check itself never propagates out of check_hf_login. -/
theorem c9_whoami_exception_swallowed (env : Env) (e : String)
    (h : env.whoamiExc = some e) :
    ((check_hf_login env).2
        = (match env.hfToken with
           | some _ => env.tokenLoginOk
           | none => env.interactiveLoginOk))
    ∧ (∀ e2 : String,
        check_hf_login { env with whoamiExc := some e2 } = check_hf_login env)
    ∧ (∀ t, env.hfToken = some t →
        Event.tokenLogin t env.tokenLoginOk ∈ (check_hf_login env).1)
    ∧ (env.hfToken = none →
        Event.interactiveLogin env.interactiveLoginOk ∈ (check_hf_login env).1) := by
  refine ⟨?_, ?_, ?_, ?_⟩
  · cases ht : env.hfToken <;> simp [check_hf_login, h, ht]
  · intro e2
    cases ht : env.hfToken <;> simp [check_hf_login, h, ht]
  · intro t ht
    simp [check_hf_login, h, ht]
  · intro ht
    simp [check_hf_login, h, ht]

theorem c9_whoami_exception_swallowed_witness :
    Event.tokenLogin "hf_abc" true ∈ (check_hf_login envWhoamiFail).1 := by
  have h := (c9_whoami_exception_swallowed envWhoamiFail "connection reset"
    rfl).2.2.1 "hf_abc" rfl
  simpa [envWhoamiFail] using h

/-- Claim C4 counterexample: the whoami exception raised inside
check_hf_login is caught rather than propagated: with a failing identity
query and a working token login, the whole workflow completes
successfully, so it is false that every exception raised in the workflow
propagates unhandled and terminates execution. -/
theorem c4_counterexample :
    envWhoamiFail.whoamiExc = some "connection reset"
    ∧ (check_hf_login envWhoamiFail).2 = true
    ∧ (main envWhoamiFail (some ["out"])).2 = true := by
  refine ⟨rfl, rfl, ?_⟩
  decide

/-- Claim C4 (amended): the only caught exception is the identity-query
(whoami) exception inside check_hf_login, which is routed to the
token/interactive fallback; every other failure aborts the workflow
immediately: the run succeeds exactly when every step succeeds, and each
failing step is the last event of the trace, with nothing retried and
nothing after it. -/
theorem c4_amended_error_propagation (env : Env) (od : Option FsPath) :
    ((main env od).2 = true ↔
      ((check_hf_login env).2 = true ∧ env.snapshotOk = true
       ∧ env.copyOk "EN" = true ∧ env.copyOk "ZH" = true
       ∧ ∀ s ∈ subsets, env.wgetExit (url_of s) = 0 ∧ env.tarExit (tar_file s) = 0))
    ∧ ((check_hf_login env).2 = false → main env od = ((check_hf_login env).1, false))
    ∧ (∀ e t, env.whoamiExc = some e → env.hfToken = some t → env.tokenLoginOk = false →
        main env od = ([Event.whoami false, Event.tokenLogin t false], false))
    ∧ (∀ e, env.whoamiExc = some e → env.hfToken = none → env.interactiveLoginOk = false →
        main env od = ([Event.whoami false, Event.interactiveLogin false], false))
    ∧ ((check_hf_login env).2 = true → env.snapshotOk = false →
        main env od = ((check_hf_login env).1
          ++ [Event.snapshotDownload emiliaRepo defaultRevision false], false))
    ∧ ((check_hf_login env).2 = true → env.snapshotOk = true → env.copyOk "EN" = false →
        main env od = ((check_hf_login env).1
          ++ [Event.snapshotDownload emiliaRepo defaultRevision true,
              Event.mkdirTree (resolveDir env od ++ ["Emilia_Dataset"]),
              Event.mkdirOne (resolveDir env od ++ ["Emilia_Dataset", "raw"]),
              Event.copyLang "EN" false], false)) := by
  refine ⟨?_, main_gate_false od, ?_, ?_, ?_, ?_⟩
  · constructor
    · intro hok
      by_cases h1 : (check_hf_login env).2
      · by_cases h2 : (download_emilia env (resolveDir env od) defaultRevision).2
        · have hm := main_decomp od h1 h2
          rw [hm] at hok
          have hl := (libritts_true_iff env (resolveDir env od)).mp hok
          have he := (emilia_true_iff env (resolveDir env od) defaultRevision).mp h2
          exact ⟨h1, he.1, he.2.1, he.2.2, hl⟩
        · rw [main_emilia_false od h1 (by simpa using h2)] at hok
          simp at hok
      · rw [main_gate_false od (by simpa using h1)] at hok
        simp at hok
    · rintro ⟨h1, hs, hen, hzh, hlib⟩
      have h2 : (download_emilia env (resolveDir env od) defaultRevision).2 = true :=
        (emilia_true_iff env (resolveDir env od) defaultRevision).mpr ⟨hs, hen, hzh⟩
      rw [main_decomp od h1 h2]
      exact (libritts_true_iff env (resolveDir env od)).mpr hlib
  · intro e t he ht htl
    have hc : check_hf_login env
        = ([Event.whoami false, Event.tokenLogin t false], false) := by
      simp [check_hf_login, he, ht, htl]
    rw [main_gate_false od (by rw [hc])]
    rw [hc]
  · intro e he ht hil
    have hc : check_hf_login env
        = ([Event.whoami false, Event.interactiveLogin false], false) := by
      simp [check_hf_login, he, ht, hil]
    rw [main_gate_false od (by rw [hc])]
    rw [hc]
  · intro h1 hs
    have he : download_emilia env (resolveDir env od) defaultRevision
        = ([Event.snapshotDownload emiliaRepo defaultRevision false], false) := by
      simp [download_emilia, hs]
    rw [main_emilia_false od h1 (by rw [he])]
    rw [he]
  · intro h1 hs hen
    have he : download_emilia env (resolveDir env od) defaultRevision
        = ([Event.snapshotDownload emiliaRepo defaultRevision true,
            Event.mkdirTree (resolveDir env od ++ ["Emilia_Dataset"]),
            Event.mkdirOne (resolveDir env od ++ ["Emilia_Dataset", "raw"]),
            Event.copyLang "EN" false], false) := by
      simp [download_emilia, hs, runSeq, emiliaCopyStep, hen]
    rw [main_emilia_false od h1 (by rw [he])]
    rw [he]

theorem c4_amended_error_propagation_witness :
    main envTokenFail none
      = ([Event.whoami false, Event.tokenLogin "hf_bad" false], false) :=
  (c4_amended_error_propagation envTokenFail none).2.2.1
    "expired credentials" "hf_bad" rfl rfl rfl

/-- Claim C6: on every invocation main resolves the output directory,
runs the credential gate first, then the Corpus-A fetcher with the
default revision fc71e07, then the Corpus-B fetcher, in this order with
no step started before the previous one completes; no download event can
occur unless the gate (and, for Corpus-B, the Corpus-A step) succeeded,
and a successful run contains both fetchers' download events. -/
theorem c6_main_sequence (env : Env) (od : Option FsPath) :
    defaultRevision = "fc71e07"
    ∧ (∀ r rev ok, Event.snapshotDownload r rev ok ∈ (main env od).1 →
        r = emiliaRepo ∧ rev = defaultRevision)
    ∧ ((check_hf_login env).2 = false → main env od = ((check_hf_login env).1, false))
    ∧ ((check_hf_login env).2 = true →
        (download_emilia env (resolveDir env od) defaultRevision).2 = false →
        main env od = ((check_hf_login env).1
          ++ (download_emilia env (resolveDir env od) defaultRevision).1, false))
    ∧ ((check_hf_login env).2 = true →
        (download_emilia env (resolveDir env od) defaultRevision).2 = true →
        main env od = ((check_hf_login env).1
          ++ (download_emilia env (resolveDir env od) defaultRevision).1
          ++ (download_libritts env (resolveDir env od)).1,
         (download_libritts env (resolveDir env od)).2))
    ∧ (∀ u p f x, Event.wget u p f x ∈ (main env od).1 →
        (check_hf_login env).2 = true
        ∧ (download_emilia env (resolveDir env od) defaultRevision).2 = true)
    ∧ ((main env od).2 = true →
        Event.snapshotDownload emiliaRepo defaultRevision true ∈ (main env od).1
        ∧ ∀ s ∈ subsets,
            Event.wget (url_of s) (resolveDir env od ++ ["LibriTTS"]) (tar_file s) 0
              ∈ (main env od).1) := by
  refine ⟨rfl, ?_, main_gate_false od, main_emilia_false od, main_decomp od, ?_, ?_⟩
  · intro r rev ok hmem
    by_cases h1 : (check_hf_login env).2
    · by_cases h2 : (download_emilia env (resolveDir env od) defaultRevision).2
      · rw [main_decomp od h1 h2] at hmem
        rcases List.mem_append.mp hmem with hm | hm
        · rcases List.mem_append.mp hm with hm2 | hm2
          · have := check_auth_only env _ hm2
            simp [isAuthEvent] at this
          · have h3 := emilia_snapshot_mem env _ _ hm2
            exact ⟨h3.1, h3.2.1⟩
        · exact absurd hm (libritts_no_snapshot env _)
      · rw [main_emilia_false od h1 (by simpa using h2)] at hmem
        rcases List.mem_append.mp hmem with hm | hm
        · have := check_auth_only env _ hm
          simp [isAuthEvent] at this
        · have h3 := emilia_snapshot_mem env _ _ hm
          exact ⟨h3.1, h3.2.1⟩
    · rw [main_gate_false od (by simpa using h1)] at hmem
      have := check_auth_only env _ hmem
      simp [isAuthEvent] at this
  · intro u p f x hmem
    by_cases h1 : (check_hf_login env).2
    · by_cases h2 : (download_emilia env (resolveDir env od) defaultRevision).2
      · exact ⟨h1, h2⟩
      · rw [main_emilia_false od h1 (by simpa using h2)] at hmem
        rcases List.mem_append.mp hmem with hm | hm
        · have := check_auth_only env _ hm
          simp [isAuthEvent] at this
        · have := emilia_no_wget env _ _ _ hm
          simp [isWget] at this
    · rw [main_gate_false od (by simpa using h1)] at hmem
      have := check_auth_only env _ hmem
      simp [isAuthEvent] at this
  · intro hok
    by_cases h1 : (check_hf_login env).2
    · by_cases h2 : (download_emilia env (resolveDir env od) defaultRevision).2
      · have hm := main_decomp od h1 h2
        have hl : (download_libritts env (resolveDir env od)).2 = true := by
          rw [hm] at hok
          exact hok
        constructor
        · have hsnap : env.snapshotOk = true :=
            ((emilia_true_iff env (resolveDir env od) defaultRevision).mp h2).1
          rw [hm]
          apply List.mem_append.mpr
          left
          apply List.mem_append.mpr
          right
          simp [download_emilia, hsnap]
        · intro s hs
          have hall := (libritts_true_iff env (resolveDir env od)).mp hl s hs
          rw [hm]
          apply List.mem_append.mpr
          right
          have hrun : (runSeq (subsetStep env (resolveDir env od ++ ["LibriTTS"]))
              subsets).2 = true := hl
          have hsub := runSeq_true_sub hrun s hs
          have hin : Event.wget (url_of s) (resolveDir env od ++ ["LibriTTS"])
              (tar_file s) 0
              ∈ (subsetStep env (resolveDir env od ++ ["LibriTTS"]) s).1 := by
            rw [subsetStep_true_eq hall.1 hall.2]
            simp
          exact List.mem_cons.mpr (Or.inr (hsub _ hin))
      · rw [main_emilia_false od h1 (by simpa using h2)] at hok
        simp at hok
    · rw [main_gate_false od (by simpa using h1)] at hok
      simp at hok

theorem c6_main_sequence_witness :
    Event.snapshotDownload emiliaRepo defaultRevision true ∈ (main envAllOk none).1
    ∧ ∀ s ∈ subsets,
        Event.wget (url_of s) (resolveDir envAllOk none ++ ["LibriTTS"]) (tar_file s) 0
          ∈ (main envAllOk none).1 :=
  (c6_main_sequence envAllOk none).2.2.2.2.2.2 (by decide)

theorem download_emilia_fs_at_root (cache out : FsPath) (fs : FS) :
    download_emilia_fs cache out fs out
      = (if (fs out).isNone then some Content.dir else fs out) := by
  show emiliaLangCopy cache (out ++ ["Emilia_Dataset", "raw"]) "ZH"
      (emiliaLangCopy cache (out ++ ["Emilia_Dataset", "raw"]) "EN"
        (mkdirOneFS (mkdirTreeFS fs (out ++ ["Emilia_Dataset"]))
          (out ++ ["Emilia_Dataset", "raw"]))) out = _
  have hzh : isUnder ((out ++ ["Emilia_Dataset", "raw"]) ++ ["ZH"]) out = false :=
    isUnder_false_of_length (by simp)
  have hen : isUnder ((out ++ ["Emilia_Dataset", "raw"]) ++ ["EN"]) out = false :=
    isUnder_false_of_length (by simp)
  have hne : out ≠ out ++ ["Emilia_Dataset", "raw"] := by
    intro heq
    have := congrArg List.length heq
    simp at this
  rw [emiliaLangCopy_not hzh, emiliaLangCopy_not hen, mkdirOneFS_not hne]
  have hu : isUnder out (out ++ ["Emilia_Dataset"]) = true := isUnder_append_self _ _
  simp [mkdirTreeFS, hu]

/-- Claim C7: with no output directory argument, main resolves the output
root to the expanded home directory plus datasets, behaves exactly as if
that path had been passed, reaches the directory-creating mkdir of
download_emilia on that root, and the file-system effect of
download_emilia creates the output root (with parents) when absent and
leaves it unchanged when present. -/
theorem c7_default_output_dir (env : Env) :
    resolveDir env none = env.home ++ ["datasets"]
    ∧ main env none = main env (some (env.home ++ ["datasets"]))
    ∧ ((check_hf_login env).2 = true → env.snapshotOk = true →
        Event.mkdirTree ((env.home ++ ["datasets"]) ++ ["Emilia_Dataset"])
          ∈ (main env none).1)
    ∧ (∀ cache out : FsPath, ∀ fs : FS, fs out = none →
        download_emilia_fs cache out fs out = some Content.dir)
    ∧ (∀ cache out : FsPath, ∀ fs : FS, ∀ c : Content, fs out = some c →
        download_emilia_fs cache out fs out = some c) := by
  refine ⟨rfl, rfl, ?_, ?_, ?_⟩
  · intro h1 hsnap
    have hmem : Event.mkdirTree ((env.home ++ ["datasets"]) ++ ["Emilia_Dataset"])
        ∈ (download_emilia env (resolveDir env none) defaultRevision).1 := by
      simp [download_emilia, hsnap, resolveDir]
    by_cases h2 : (download_emilia env (resolveDir env none) defaultRevision).2
    · rw [main_decomp none h1 h2]
      apply List.mem_append.mpr
      left
      exact List.mem_append.mpr (Or.inr hmem)
    · rw [main_emilia_false none h1 (by simpa using h2)]
      exact List.mem_append.mpr (Or.inr hmem)
  · intro cache out fs h
    rw [download_emilia_fs_at_root]
    simp [h]
  · intro cache out fs c h
    rw [download_emilia_fs_at_root]
    simp [h]

theorem c7_default_output_dir_witness :
    Event.mkdirTree (((["home", "user"] : FsPath) ++ ["datasets"]) ++ ["Emilia_Dataset"])
        ∈ (main envAllOk none).1
    ∧ download_emilia_fs ["cache"] ["home", "user", "datasets"] fsEmpty
        ["home", "user", "datasets"] = some Content.dir := by
  constructor
  · exact (c7_default_output_dir envAllOk).2.2.1 (by decide) rfl
  · exact (c7_default_output_dir envAllOk).2.2.2.1 ["cache"]
      ["home", "user", "datasets"] fsEmpty rfl

theorem cache_disjoint {cache raw : FsPath} (h1 : isUnder cache raw = false)
    (h2 : isUnder raw cache = false) (lang : String) {q : FsPath}
    (hq : isUnder cache q = true) : isUnder (raw ++ [lang]) q = false := by
  cases hu : isUnder (raw ++ [lang]) q with
  | false => rfl
  | true =>
    rcases isUnder_comparable hu hq with hc | hc
    · have hrc : isUnder raw cache = true :=
        isUnder_trans (isUnder_append_self raw [lang]) hc
      rw [h2] at hrc
      exact absurd hrc (by simp)
    · rcases isUnder_concat hc with hc2 | hc2
      · rw [h1] at hc2
        exact absurd hc2 (by simp)
      · have hrc : isUnder raw cache = true := by
          rw [hc2]
          exact isUnder_append_self raw [lang]
        rw [h2] at hrc
        exact absurd hrc (by simp)

theorem emilia_mkdirs_cache_eq {cache out : FsPath} (fs : FS)
    (h1 : isUnder cache (out ++ ["Emilia_Dataset", "raw"]) = false) (l : FsPath) :
    mkdirOneFS (mkdirTreeFS fs (out ++ ["Emilia_Dataset"]))
        (out ++ ["Emilia_Dataset", "raw"]) (cache ++ l)
      = fs (cache ++ l) := by
  have hself : isUnder cache (cache ++ l) = true := isUnder_append_self _ _
  have hne : cache ++ l ≠ out ++ ["Emilia_Dataset", "raw"] := by
    intro heq
    have hc : isUnder cache (out ++ ["Emilia_Dataset", "raw"]) = true := by
      rw [← heq]
      exact hself
    rw [h1] at hc
    exact absurd hc (by simp)
  rw [mkdirOneFS_not hne]
  have hnt : isUnder (cache ++ l) (out ++ ["Emilia_Dataset"]) = false := by
    cases hu : isUnder (cache ++ l) (out ++ ["Emilia_Dataset"]) with
    | false => rfl
    | true =>
      have hc : isUnder cache (out ++ ["Emilia_Dataset"]) = true :=
        isUnder_trans hself hu
      have hc2 : isUnder cache (out ++ ["Emilia_Dataset", "raw"]) = true := by
        refine isUnder_trans hc ?_
        exact (isUnder_iff _ _).mpr ⟨["raw"], by simp⟩
      rw [h1] at hc2
      exact absurd hc2 (by simp)
  rw [mkdirTreeFS_not hnt]

/-- Claim C2: in download_emilia, for each of EN and ZH, any existing
destination at Emilia_Dataset/raw/lang is removed recursively and the
snapshot subtree copied in, so after a successful run the destination
subtree equals the snapshot subtree pointwise, with no stale entries
left (the snapshot cache being disjoint from the raw destination). -/
theorem c2_emilia_replaces_destination (cache out : FsPath) (fs : FS)
    (h1 : isUnder cache (out ++ ["Emilia_Dataset", "raw"]) = false)
    (h2 : isUnder (out ++ ["Emilia_Dataset", "raw"]) cache = false)
    (hEN : fs (cache ++ ["EN"]) = some Content.dir)
    (hZH : fs (cache ++ ["ZH"]) = some Content.dir)
    (rest : FsPath) :
    download_emilia_fs cache out fs
        ((out ++ ["Emilia_Dataset", "raw"]) ++ ["EN"] ++ rest)
      = fs (cache ++ ["EN"] ++ rest)
    ∧ download_emilia_fs cache out fs
        ((out ++ ["Emilia_Dataset", "raw"]) ++ ["ZH"] ++ rest)
      = fs (cache ++ ["ZH"] ++ rest) := by
  constructor
  · show emiliaLangCopy cache (out ++ ["Emilia_Dataset", "raw"]) "ZH"
        (emiliaLangCopy cache (out ++ ["Emilia_Dataset", "raw"]) "EN"
          (mkdirOneFS (mkdirTreeFS fs (out ++ ["Emilia_Dataset"]))
            (out ++ ["Emilia_Dataset", "raw"])))
        ((out ++ ["Emilia_Dataset", "raw"]) ++ ["EN"] ++ rest)
      = fs (cache ++ ["EN"] ++ rest)
    have hzh_not : isUnder ((out ++ ["Emilia_Dataset", "raw"]) ++ ["ZH"])
        ((out ++ ["Emilia_Dataset", "raw"]) ++ ["EN"] ++ rest) = false := by
      have hshape : (out ++ ["Emilia_Dataset", "raw"]) ++ ["EN"] ++ rest
          = (out ++ ["Emilia_Dataset", "raw"]) ++ "EN" :: rest := by
        simp
      rw [hshape]
      exact isUnder_ne_head (by decide)
    rw [emiliaLangCopy_not hzh_not]
    have hdisjEN : isUnder ((out ++ ["Emilia_Dataset", "raw"]) ++ ["EN"])
        (cache ++ ["EN"] ++ rest) = false := by
      apply cache_disjoint h1 h2
      rw [List.append_assoc]
      exact isUnder_append_self _ _
    rw [emiliaLangCopy_under hdisjEN]
    rw [List.append_assoc]
    exact emilia_mkdirs_cache_eq fs h1 (["EN"] ++ rest)
  · show emiliaLangCopy cache (out ++ ["Emilia_Dataset", "raw"]) "ZH"
        (emiliaLangCopy cache (out ++ ["Emilia_Dataset", "raw"]) "EN"
          (mkdirOneFS (mkdirTreeFS fs (out ++ ["Emilia_Dataset"]))
            (out ++ ["Emilia_Dataset", "raw"])))
        ((out ++ ["Emilia_Dataset", "raw"]) ++ ["ZH"] ++ rest)
      = fs (cache ++ ["ZH"] ++ rest)
    have hdisjZH : isUnder ((out ++ ["Emilia_Dataset", "raw"]) ++ ["ZH"])
        (cache ++ ["ZH"] ++ rest) = false := by
      apply cache_disjoint h1 h2
      rw [List.append_assoc]
      exact isUnder_append_self _ _
    rw [emiliaLangCopy_under hdisjZH]
    have hen_not : isUnder ((out ++ ["Emilia_Dataset", "raw"]) ++ ["EN"])
        (cache ++ ["ZH"] ++ rest) = false := by
      apply cache_disjoint h1 h2
      rw [List.append_assoc]
      exact isUnder_append_self _ _
    rw [emiliaLangCopy_not hen_not]
    rw [List.append_assoc]
    exact emilia_mkdirs_cache_eq fs h1 (["ZH"] ++ rest)

theorem c2_emilia_replaces_destination_witness :
    download_emilia_fs ["cache"] ["out"] fsC2
        ((["out"] ++ ["Emilia_Dataset", "raw"]) ++ ["EN"] ++ ["stale.wav"]) = none
    ∧ download_emilia_fs ["cache"] ["out"] fsC2
        ((["out"] ++ ["Emilia_Dataset", "raw"]) ++ ["EN"] ++ ["a.wav"])
      = some (Content.file "new-audio") := by
  constructor
  · have h := (c2_emilia_replaces_destination ["cache"] ["out"] fsC2
      (by decide) (by decide) (by decide) (by decide) ["stale.wav"]).1
    rw [h]
    decide
  · have h := (c2_emilia_replaces_destination ["cache"] ["out"] fsC2
      (by decide) (by decide) (by decide) (by decide) ["a.wav"]).1
    rw [h]
    decide

/-- Claim C10: a successful run of download_emilia modifies only the
paths Emilia_Dataset, Emilia_Dataset/raw and the two language subtrees
under the output root; every other entry strictly under the output root,
including other entries already inside raw, keeps its exact prior
contents. -/
theorem c10_emilia_frame (cache out : FsPath) (fs : FS) (q : FsPath)
    (hq0 : isUnder out q = true)
    (hq1 : q ≠ out)
    (hq2 : q ≠ out ++ ["Emilia_Dataset"])
    (hq3 : q ≠ out ++ ["Emilia_Dataset", "raw"])
    (hq4 : isUnder ((out ++ ["Emilia_Dataset", "raw"]) ++ ["EN"]) q = false)
    (hq5 : isUnder ((out ++ ["Emilia_Dataset", "raw"]) ++ ["ZH"]) q = false) :
    download_emilia_fs cache out fs q = fs q := by
  show emiliaLangCopy cache (out ++ ["Emilia_Dataset", "raw"]) "ZH"
      (emiliaLangCopy cache (out ++ ["Emilia_Dataset", "raw"]) "EN"
        (mkdirOneFS (mkdirTreeFS fs (out ++ ["Emilia_Dataset"]))
          (out ++ ["Emilia_Dataset", "raw"]))) q = fs q
  rw [emiliaLangCopy_not hq5, emiliaLangCopy_not hq4, mkdirOneFS_not hq3]
  have hnt : isUnder q (out ++ ["Emilia_Dataset"]) = false := by
    cases hu : isUnder q (out ++ ["Emilia_Dataset"]) with
    | false => rfl
    | true =>
      rcases isUnder_concat hu with hc | hc
      · exact absurd (isUnder_antisymm hc hq0) hq1
      · exact absurd hc hq2
  rw [mkdirTreeFS_not hnt]

theorem c10_emilia_frame_witness :
    download_emilia_fs ["cache"] ["out"] fsC2 ["out", "keep.txt"]
      = fsC2 ["out", "keep.txt"] :=
  c10_emilia_frame ["cache"] ["out"] fsC2 ["out", "keep.txt"]
    (by decide) (by decide) (by decide) (by decide) (by decide) (by decide)

end F5
